import Mathlib

/-!
Verification development for the GAIA agent repository (src/agent.py).

Strings of the Python program are embedded as `List Char`.  The locally
authored logic of `agent.py` — the OCR wrapper `extract_text_from_image`,
the JSONL loading into documents, the retriever wrapper
`get_answer_info_retriever`, and the final-answer extraction in `main` —
is translated directly from the source.  The `BM25Retriever` class comes
from an external library that is not part of the repository, so its
retrieval behaviour is modelled from the specification (a term-frequency
ranking with saturation and document-length normalization, returning the
records of positive relevance in descending score order).
-/

/-! ### Python string helpers -/

/-- Whitespace characters removed by the Python method `str.strip()`
(restricted to the ASCII whitespace set). -/
def pyWS (c : Char) : Bool :=
  c = ' ' || c = '\t' || c = '\n' || c = '\r' || c = '\x0b' || c = '\x0c'

/-- Embedding of the Python method `str.strip()`: remove whitespace from both
ends of the string. -/
def pyStrip (s : List Char) : List Char :=
  ((s.dropWhile pyWS).reverse.dropWhile pyWS).reverse

/-- Embedding of the Python operator `sep in s`: substring occurrence. -/
def containsSub (sep : List Char) : List Char → Bool
  | [] => sep.isEmpty
  | c :: cs => sep.isPrefixOf (c :: cs) || containsSub sep cs

/-- Fuel-indexed embedding of the Python method `s.split(sep)` for a nonempty
separator: scan left to right, cut at each non-overlapping occurrence of
`sep`.  The fuel only serves to make the recursion structural; `pySplit`
instantiates it with the length of the string, which always suffices. -/
def pySplitF (sep : List Char) : Nat → List Char → List (List Char)
  | _, [] => [[]]
  | 0, c :: cs => [c :: cs]
  | n + 1, c :: cs =>
    if sep.isPrefixOf (c :: cs) then
      [] :: pySplitF sep n (cs.drop (sep.length - 1))
    else
      match pySplitF sep n cs with
      | [] => [[c]]
      | h :: t => (c :: h) :: t

/-- Embedding of the Python method `s.split(sep)` (nonempty separator). -/
def pySplit (sep s : List Char) : List (List Char) :=
  pySplitF sep s.length s

/-! ### The final-answer extractor of `main` (src/agent.py lines 129-132) -/

/-- The literal marker searched for by `main`. -/
def FINAL_ANSWER_MARKER : List Char := "FINAL ANSWER:".toList

/-- Embedding of the answer extraction in `main`:
`raw.split("FINAL ANSWER:")[-1].strip()` when the marker occurs in `raw`
(Python `[-1]` on the never-empty result of `split` is its last element),
and `raw.strip()` otherwise. -/
def extractFinalAnswer (raw : List Char) : List Char :=
  if containsSub FINAL_ANSWER_MARKER raw then
    pyStrip ((pySplit FINAL_ANSWER_MARKER raw).getLastD [])
  else
    pyStrip raw

/-- A string has no whitespace at its front. -/
def headNotWS (s : List Char) : Bool :=
  match s with
  | [] => true
  | c :: _ => !pyWS c

/-- A string is trimmed: no whitespace at either end. -/
def isTrimmedB (s : List Char) : Bool :=
  headNotWS s && headNotWS s.reverse

/-! ### OCR wrapper (src/agent.py lines 20-35) -/

/-- Outcome of the two external calls `Image.open` / `pytesseract.image_to_string`
inside `extract_text_from_image`: either they produce the extracted text, or
one of them raises an exception carrying a message (missing file, decode
error, OCR engine failure).  Fallible external code is embedded as a sum. -/
inductive OCRCallOutcome where
  | ok (text : List Char)
  | failure (msg : List Char)
deriving DecidableEq

/-- Embedding of `extract_text_from_image`: the `try` block formats the
extracted text behind the fixed label; the `except Exception` block catches
any failure of the external calls and formats its message instead of
re-raising.  The function is total: no outcome propagates an exception. -/
def extract_text_from_image (r : OCRCallOutcome) : List Char :=
  match r with
  | .ok text => ("Extracted text from image:\n\n".toList) ++ text
  | .failure e => ("Error extracting text from image: ".toList) ++ e

/-! ### Data loading (src/agent.py lines 66-84) -/

/-- One well-formed JSONL line of `metadata.jsonl`, already parsed: a record
with the fields `task_id`, `Question` and `Final answer` that `agent.py`
reads.  (`json.loads` on a well-formed line is abstracted as the identity on
such records.) -/
structure QARecord where
  task_id : List Char
  Question : List Char
  final_answer : List Char
deriving DecidableEq

/-- An in-memory `Document`: the body text plus the two metadata fields set
by `agent.py` (lines 75-84). -/
structure Doc where
  text : List Char
  task_id : List Char
  question : List Char
deriving DecidableEq

/-- Embedding of the loading loop (lines 69-72): `json_QA` starts empty and
each parsed line is appended in order. -/
def loadJsonQA (lines : List QARecord) : List QARecord :=
  lines.foldl (fun acc r => acc ++ [r]) []

/-- Embedding of the `Document` construction (lines 75-84): the body text is
`f"Final Answer: {sample['Final answer']}"`; `task_id` and the question go
into metadata only. -/
def mkDoc (sample : QARecord) : Doc :=
  { text := ("Final Answer: ".toList) ++ sample.final_answer
    task_id := sample.task_id
    question := sample.Question }

/-- Embedding of the `docs` list comprehension (lines 75-84). -/
def loadDocs (samples : List QARecord) : List Doc :=
  samples.map mkDoc

/-! ### BM25 retrieval model

`BM25Retriever` comes from an external library (`llama_index.retrievers.bm25`)
whose code is not part of this repository, so its behaviour is modelled from
the specification: a sparse lexical ranking — term frequency with saturation
and document-length normalization over the document bodies — where a record
matches when it scores above zero relevance, and matches are returned in
descending score order. -/

/-- Token characters: tokenization keeps maximal alphanumeric runs. -/
def isWordChar (c : Char) : Bool := c.isAlphanum

/-- Fuel-indexed tokenizer: lowercased maximal alphanumeric runs.  The fuel
only makes the recursion structural; `tokenize` instantiates it with the
length of the string, which always suffices. -/
def tokenizeF : Nat → List Char → List (List Char)
  | _, [] => []
  | 0, _ :: _ => []
  | n + 1, c :: cs =>
    if isWordChar c then
      ((c :: cs).takeWhile isWordChar).map Char.toLower ::
        tokenizeF n ((c :: cs).dropWhile isWordChar)
    else
      tokenizeF n cs

/-- Modelled from the spec: the tokenization used by the external BM25
index — lowercased lexical terms (maximal alphanumeric runs). -/
def tokenize (s : List Char) : List (List Char) :=
  tokenizeF s.length s

/-- Saturation parameter of the ranking (the customary k1). -/
def kParam : ℚ := 3 / 2

/-- Document-length normalization parameter of the ranking (the customary b). -/
def bParam : ℚ := 3 / 4

/-- Length of a document body in tokens. -/
def dl (d : Doc) : ℚ := ((tokenize d.text).length : ℚ)

/-- Average document length of the corpus. -/
def avgdl (docsL : List Doc) : ℚ :=
  (docsL.map (fun d => dl d)).sum / (docsL.length : ℚ)

/-- Number of documents of the corpus containing a term. -/
def docFreq (docsL : List Doc) (t : List Char) : Nat :=
  (docsL.filter (fun d => (tokenize d.text).contains t)).length

/-- Modelled from the spec: the inverse-document-frequency weight of a term —
a positive rational weight, strictly decreasing in the document frequency,
standing in for the logarithmic idf of the external library. -/
def idf (docsL : List Doc) (t : List Char) : ℚ :=
  ((docsL.length : ℚ) - (docFreq docsL t : ℚ) + 1 / 2) / ((docFreq docsL t : ℚ) + 1 / 2)

/-- Number of occurrences of a term in a document body. -/
def tfq (t : List Char) (d : Doc) : ℚ := ((tokenize d.text).count t : ℚ)

/-- Modelled from the spec: contribution of one query term to the relevance
of a document — term frequency with saturation (k1) and document-length
normalization (b), weighted by the idf of the term. -/
def termScore (docsL : List Doc) (d : Doc) (t : List Char) : ℚ :=
  idf docsL t * (tfq t d * (kParam + 1)) /
    (tfq t d + kParam * (1 - bParam + bParam * dl d / avgdl docsL))

/-- Modelled from the spec: the relevance score of a document for a query —
the sum of the per-term contributions over the query's terms. -/
def bm25Score (docsL : List Doc) (q : List Char) (d : Doc) : ℚ :=
  ((tokenize q).map (termScore docsL d)).sum

/-- The state held by the external `BM25Retriever` object: the node list it
was built over (line 87 of src/agent.py builds it once from `docs`). -/
structure BM25Index where
  nodes : List Doc
deriving DecidableEq

/-- Embedding of `BM25Retriever.from_defaults(nodes=docs)` (line 87). -/
def BM25Retriever_from_defaults (docsL : List Doc) : BM25Index :=
  { nodes := docsL }

/-- Modelled from the spec: `bm25_retriever.retrieve(query)` — the records
scoring above zero relevance, in descending score order. -/
def retrieve (idx : BM25Index) (q : List Char) : List Doc :=
  List.insertionSort
    (fun a d => bm25Score idx.nodes q d ≤ bm25Score idx.nodes q a)
    (idx.nodes.filter (fun d => decide (0 < bm25Score idx.nodes q d)))

/-- The fixed string returned when nothing matches (line 96). -/
def noMatchString : List Char := "No matching guest information found.".toList

/-- Embedding of `get_answer_info_retriever` (lines 90-96): retrieve, then
join the texts of the first three results with blank lines, or return the
fixed no-match string when the result list is empty (Python truthiness of a
list). -/
def get_answer_info_retriever (idx : BM25Index) (q : List Char) : List Char :=
  if (retrieve idx q).isEmpty then noMatchString
  else List.intercalate ("\n\n".toList) (((retrieve idx q).take 3).map Doc.text)

/-! ### Module-level state (src/agent.py lines 66-100) -/

/-- The module-level state of `agent.py` after the import-time code ran:
the parsed records, the document list and the retriever index. -/
structure AgentState where
  json_QA : List QARecord
  docs : List Doc
  bm25_retriever : BM25Index
deriving DecidableEq

/-- Embedding of the import-time code (lines 66-87): parse all lines, build
the documents, build the index once from the documents. -/
def startup (lines : List QARecord) : AgentState :=
  let qa := loadJsonQA lines
  let ds := loadDocs qa
  { json_QA := qa, docs := ds, bm25_retriever := BM25Retriever_from_defaults ds }

/-- A call of `get_answer_info_retriever` as a state transformer: the function
body (lines 90-96) only reads the module-level `bm25_retriever` and assigns
to no module-level name, so the state it runs in is returned unchanged. -/
def get_answer_info_retriever_call (st : AgentState) (q : List Char) :
    List Char × AgentState :=
  (get_answer_info_retriever st.bm25_retriever q, st)

/-! ### Concrete inputs used by witnesses -/

/-- A sample well-formed record of `metadata.jsonl`. -/
def parisRecord : QARecord :=
  { task_id := "1".toList
    Question := "capital of France".toList
    final_answer := "Paris".toList }

/-- The document built from `parisRecord`: body `"Final Answer: Paris"`,
question only in metadata. -/
def parisDoc : Doc := mkDoc parisRecord

/-! ### Lemmas about the Python split embedding -/

theorem marker_eq_cons : FINAL_ANSWER_MARKER = 'F' :: ("INAL ANSWER:".toList) := by decide

theorem marker_length : FINAL_ANSWER_MARKER.length = 13 := by decide

/-- The marker has no nonempty proper border: no nonempty proper prefix of it
is also one of its suffixes.  Hence occurrences of the marker in a string
never overlap. -/
theorem marker_noBorder : ∀ k : Fin 13, 0 < (k : Nat) →
    FINAL_ANSWER_MARKER.take (k : Nat) ≠ FINAL_ANSWER_MARKER.drop (13 - (k : Nat)) := by
  decide

theorem isPrefixOf_append_self (l r : List Char) : l.isPrefixOf (l ++ r) = true := by
  rw [ List.isPrefixOf_iff_prefix]
  exact List.prefix_append l r

theorem containsSub_append_self (sep a t : List Char) :
    containsSub sep (a ++ sep ++ t) = true := by
  induction a with
  | nil =>
    simp only [List.nil_append]
    cases sep with
    | nil =>
      cases t with
      | nil => rfl
      | cons c cs => simp [containsSub, List.isPrefixOf]
    | cons c cs =>
      rw [List.cons_append]
      show ((c :: cs).isPrefixOf (c :: (cs ++ t)) || containsSub (c :: cs) (cs ++ t)) = true
      rw [← List.cons_append, isPrefixOf_append_self]
      simp
  | cons x a' ih =>
    rw [List.cons_append, List.cons_append]
    show (sep.isPrefixOf _ || containsSub sep (a' ++ sep ++ t)) = true
    rw [ih]
    simp

theorem pySplitF_ne_nil (sep : List Char) (fuel : Nat) (s : List Char) :
    pySplitF sep fuel s ≠ [] := by
  match fuel, s with
  | _, [] => simp [pySplitF]
  | 0, c :: cs => simp [pySplitF]
  | n + 1, c :: cs =>
    simp only [pySplitF]
    split
    · simp
    · split <;> simp

theorem pySplitF_of_not_contains (sep : List Char) :
    ∀ (fuel : Nat) (s : List Char), s.length ≤ fuel →
      containsSub sep s = false → pySplitF sep fuel s = [s] := by
  intro fuel
  induction fuel with
  | zero =>
    intro s hs _
    have : s = [] := List.length_eq_zero.mp (Nat.le_zero.mp hs)
    subst this
    rfl
  | succ n ih =>
    intro s hs hc
    cases s with
    | nil => rfl
    | cons c cs =>
      simp only [containsSub, Bool.or_eq_false_iff] at hc
      simp only [pySplitF, hc.1, Bool.false_eq_true, if_false]
      rw [ih cs (by simpa using Nat.le_of_succ_le_succ hs) hc.2]

theorem pySplitF_two_of_contains (sep : List Char) (hsep : sep ≠ []) :
    ∀ (fuel : Nat) (s : List Char), s.length ≤ fuel →
      containsSub sep s = true →
      ∃ h tl, pySplitF sep fuel s = h :: tl ∧ tl ≠ [] := by
  intro fuel
  induction fuel with
  | zero =>
    intro s hs hc
    have : s = [] := List.length_eq_zero.mp (Nat.le_zero.mp hs)
    subst this
    simp only [containsSub, List.isEmpty_iff] at hc
    exact absurd hc hsep
  | succ n ih =>
    intro s hs hc
    cases s with
    | nil =>
      simp only [containsSub, List.isEmpty_iff] at hc
      exact absurd hc hsep
    | cons c cs =>
      simp only [containsSub, Bool.or_eq_true] at hc
      by_cases hp : sep.isPrefixOf (c :: cs) = true
      · refine ⟨[], pySplitF sep n (cs.drop (sep.length - 1)), ?_, pySplitF_ne_nil _ _ _⟩
        simp [pySplitF, hp]
      · have hc' : containsSub sep cs = true := by
          rcases hc with h | h
          · exact absurd h hp
          · exact h
        obtain ⟨h, tl, heq, htl⟩ :=
          ih cs (by simpa using Nat.le_of_succ_le_succ hs) hc'
        refine ⟨c :: h, tl, ?_, htl⟩
        simp only [pySplitF, hp, Bool.false_eq_true, if_false, heq]

theorem getLastD_irrel_of_ne_nil {tl : List (List Char)} (a b : List Char) (h : tl ≠ []) :
    tl.getLastD a = tl.getLastD b := by
  cases tl with
  | nil => exact absurd rfl h
  | cons x xs => rw [List.getLastD_cons, List.getLastD_cons]


/-- The last segment of the Python split of `pre ++ marker ++ t` is `t`
whenever the marker does not occur in `t`: the split cuts at the last
occurrence of the marker.  Proved by induction on the fuel, using that the
marker has no border (its occurrences cannot overlap). -/
theorem pySplitF_getLastD_marker :
    ∀ (fuel : Nat) (pre t : List Char), containsSub FINAL_ANSWER_MARKER t = false →
      (pre ++ FINAL_ANSWER_MARKER ++ t).length ≤ fuel →
      (pySplitF FINAL_ANSWER_MARKER fuel (pre ++ FINAL_ANSWER_MARKER ++ t)).getLastD [] = t := by
  intro fuel
  induction fuel with
  | zero =>
    intro pre t hc hlen
    exfalso
    simp only [List.length_append, marker_length, Nat.le_zero] at hlen
    omega
  | succ n ih =>
    intro pre t hc hlen
    cases pre with
    | nil =>
      rw [List.nil_append] at hlen ⊢
      have hp : FINAL_ANSWER_MARKER.isPrefixOf
          ('F' :: ("INAL ANSWER:".toList ++ t)) = true := by
        rw [← List.cons_append, ← marker_eq_cons]
        exact isPrefixOf_append_self _ _
      nth_rewrite 2 [marker_eq_cons]
      rw [List.cons_append]
      simp only [pySplitF]
      rw [if_pos hp]
      have e1 : (("INAL ANSWER:".toList) ++ t).drop (FINAL_ANSWER_MARKER.length - 1) = t := by
        rw [show FINAL_ANSWER_MARKER.length - 1 = ("INAL ANSWER:".toList).length by decide]
        exact List.drop_left _ _
      rw [e1]
      have ht : pySplitF FINAL_ANSWER_MARKER n t = [t] := by
        apply pySplitF_of_not_contains _ _ _ _ hc
        simp only [List.length_append, marker_length] at hlen
        omega
      rw [ht, List.getLastD_cons, List.getLastD_cons]
      rfl
    | cons c pre' =>
      have hs : (c :: pre') ++ FINAL_ANSWER_MARKER ++ t
          = c :: (pre' ++ FINAL_ANSWER_MARKER ++ t) := by
        simp [List.cons_append]
      rw [hs] at hlen ⊢
      have hlen' : (pre' ++ FINAL_ANSWER_MARKER ++ t).length ≤ n := by
        simpa using Nat.le_of_succ_le_succ hlen
      by_cases hp : FINAL_ANSWER_MARKER.isPrefixOf
          (c :: (pre' ++ FINAL_ANSWER_MARKER ++ t)) = true
      · by_cases hlong : 12 ≤ pre'.length
        · simp only [pySplitF]
          rw [if_pos hp]
          have hX : (pre' ++ FINAL_ANSWER_MARKER ++ t).drop (FINAL_ANSWER_MARKER.length - 1)
              = pre'.drop 12 ++ FINAL_ANSWER_MARKER ++ t := by
            rw [show FINAL_ANSWER_MARKER.length - 1 = 12 by decide]
            rw [List.drop_append_eq_append_drop, List.drop_append_eq_append_drop]
            have d1 : 12 - (pre' ++ FINAL_ANSWER_MARKER).length = 0 := by
              simp only [List.length_append, marker_length]
              omega
            have d2 : 12 - pre'.length = 0 := by omega
            rw [d1, d2, List.drop_zero, List.drop_zero]
          rw [hX, List.getLastD_cons]
          apply ih (pre'.drop 12) t hc
          have h1 : pre'.length + 13 + t.length ≤ n := by
            have := hlen'
            simp only [List.length_append, marker_length] at this
            omega
          simp only [List.length_append, List.length_drop, marker_length]
          omega
        · exfalso
          rw [ List.isPrefixOf_iff_prefix] at hp
          obtain ⟨r, hr⟩ := hp
          have hr' : FINAL_ANSWER_MARKER ++ r
              = (c :: pre') ++ (FINAL_ANSWER_MARKER ++ t) := by
            rw [hr]
            simp [List.cons_append, List.append_assoc]
          rcases List.append_eq_append_iff.mp hr' with ⟨a', ha, _⟩ | ⟨c', hM, hMt⟩
          · have := congrArg List.length ha
            simp only [List.length_cons, List.length_append, marker_length] at this
            omega
          · have hm : (c :: pre').length < 13 := by
              simp only [List.length_cons]
              omega
            have hkl : c'.length = 13 - (pre'.length + 1) := by
              have := congrArg List.length hM
              simp only [List.length_append, List.length_cons, marker_length] at this
              omega
            have hdropEq : FINAL_ANSWER_MARKER.drop (pre'.length + 1) = c' := by
              have h := List.drop_left (c :: pre') c'
              rw [← hM] at h
              simpa using h
            have htakeEq : FINAL_ANSWER_MARKER.take c'.length = c' := by
              have h := congrArg (List.take c'.length) hMt
              rw [List.take_append_of_le_length (by rw [marker_length]; omega)] at h
              rw [List.take_left] at h
              exact h
            have hkpos : 0 < c'.length := by omega
            have hkk : c'.length < 13 := by omega
            have hnb := marker_noBorder ⟨c'.length, hkk⟩ (by simpa using hkpos)
            apply hnb
            rw [htakeEq]
            rw [show 13 - c'.length = pre'.length + 1 by omega]
            exact hdropEq.symm
      · have hcont : containsSub FINAL_ANSWER_MARKER
            (pre' ++ FINAL_ANSWER_MARKER ++ t) = true := containsSub_append_self _ _ _
        obtain ⟨h, tl, heq, htl⟩ :=
          pySplitF_two_of_contains FINAL_ANSWER_MARKER (by decide) n _ hlen' hcont
        have hih := ih pre' t hc hlen'
        rw [heq] at hih
        simp only [pySplitF]
        rw [if_neg hp, heq]
        show ((c :: h) :: tl).getLastD [] = t
        rw [List.getLastD_cons] at hih ⊢
        rw [getLastD_irrel_of_ne_nil (c :: h) h htl]
        exact hih

theorem pySplit_getLastD_marker (pre t : List Char)
    (hc : containsSub FINAL_ANSWER_MARKER t = false) :
    (pySplit FINAL_ANSWER_MARKER (pre ++ FINAL_ANSWER_MARKER ++ t)).getLastD [] = t :=
  pySplitF_getLastD_marker _ pre t hc (le_refl _)

/-! ### Lemmas about stripping -/

theorem headNotWS_dropWhile (l : List Char) : headNotWS (l.dropWhile pyWS) = true := by
  induction l with
  | nil => rfl
  | cons c cs ih =>
    rw [List.dropWhile_cons]
    by_cases h : pyWS c = true
    · rw [if_pos h]
      exact ih
    · rw [if_neg h]
      have hf : pyWS c = false := by
        revert h
        cases pyWS c <;> simp
      simp [headNotWS, hf]

theorem headNotWS_of_prefix {l₁ l₂ : List Char} (h : l₁ <+: l₂)
    (h₂ : headNotWS l₂ = true) : headNotWS l₁ = true := by
  obtain ⟨r, rfl⟩ := h
  cases l₁ with
  | nil => rfl
  | cons c cs => simpa [headNotWS, List.cons_append] using h₂

theorem isTrimmedB_pyStrip (s : List Char) : isTrimmedB (pyStrip s) = true := by
  unfold isTrimmedB pyStrip
  rw [Bool.and_eq_true]
  constructor
  · have hsuf : (s.dropWhile pyWS).reverse.dropWhile pyWS <:+ (s.dropWhile pyWS).reverse :=
      List.dropWhile_suffix _
    have hpre : ((s.dropWhile pyWS).reverse.dropWhile pyWS).reverse
        <+: ((s.dropWhile pyWS).reverse).reverse := List.reverse_prefix.mpr hsuf
    rw [List.reverse_reverse] at hpre
    exact headNotWS_of_prefix hpre (headNotWS_dropWhile s)
  · rw [List.reverse_reverse]
    exact headNotWS_dropWhile _

/-! ### Claim theorems: the final-answer extractor -/

/-- Claim C4: the final-answer extractor of `main` returns `"42"` on
`"blah blah\nFINAL ANSWER: 42"`; on every input containing the marker it
returns the stripped suffix after the (last) marker occurrence; and on every
input without the marker it returns the whitespace-trimmed full text. -/
theorem final_answer_extractor_spec :
    extractFinalAnswer ("blah blah\nFINAL ANSWER: 42".toList) = "42".toList
    ∧ (∀ pre t : List Char, containsSub FINAL_ANSWER_MARKER t = false →
        extractFinalAnswer (pre ++ FINAL_ANSWER_MARKER ++ t) = pyStrip t)
    ∧ (∀ raw : List Char, containsSub FINAL_ANSWER_MARKER raw = false →
        extractFinalAnswer raw = pyStrip raw) := by
  refine ⟨by decide, ?_, ?_⟩
  · intro pre t hc
    unfold extractFinalAnswer
    rw [if_pos (containsSub_append_self _ _ _)]
    rw [pySplit_getLastD_marker pre t hc]
  · intro raw hc
    unfold extractFinalAnswer
    rw [if_neg (by simp [hc])]

theorem final_answer_extractor_spec_witness :
    extractFinalAnswer ("abcFINAL ANSWER:  hi  ".toList) = pyStrip ("  hi  ".toList)
    ∧ extractFinalAnswer ("  plain  ".toList) = pyStrip ("  plain  ".toList) := by
  constructor
  · have h := final_answer_extractor_spec.2.1 ("abc".toList) ("  hi  ".toList) (by decide)
    have e : "abc".toList ++ FINAL_ANSWER_MARKER ++ "  hi  ".toList
        = "abcFINAL ANSWER:  hi  ".toList := by decide
    rw [e] at h
    exact h
  · exact final_answer_extractor_spec.2.2 ("  plain  ".toList) (by decide)

/-- Claim C8: when the marker occurs more than once, the extractor returns
the stripped text after the last occurrence, not the first: for any
decomposition with two marker occurrences and no further occurrence in the
tail `c`, the result is the stripped tail. -/
theorem extractor_uses_last_marker (a b c : List Char)
    (hc : containsSub FINAL_ANSWER_MARKER c = false) :
    extractFinalAnswer (a ++ FINAL_ANSWER_MARKER ++ b ++ FINAL_ANSWER_MARKER ++ c)
      = pyStrip c := by
  have e : a ++ FINAL_ANSWER_MARKER ++ b ++ FINAL_ANSWER_MARKER ++ c
      = (a ++ FINAL_ANSWER_MARKER ++ b) ++ FINAL_ANSWER_MARKER ++ c := rfl
  rw [e]
  unfold extractFinalAnswer
  rw [if_pos (containsSub_append_self _ _ _)]
  rw [pySplit_getLastD_marker _ c hc]

theorem extractor_uses_last_marker_witness :
    extractFinalAnswer ("xFINAL ANSWER: 1 FINAL ANSWER: 2".toList) = "2".toList := by
  have h := extractor_uses_last_marker ("x".toList) (" 1 ".toList) (" 2".toList) (by decide)
  have e : "x".toList ++ FINAL_ANSWER_MARKER ++ " 1 ".toList ++ FINAL_ANSWER_MARKER ++ " 2".toList
      = "xFINAL ANSWER: 1 FINAL ANSWER: 2".toList := by decide
  rw [e] at h
  rw [h]
  decide

/-- Claim C9: the answer printed by `main` never has leading or trailing
whitespace: both the marker branch and the fallback branch strip the text. -/
theorem printed_answer_is_trimmed (raw : List Char) :
    isTrimmedB (extractFinalAnswer raw) = true := by
  unfold extractFinalAnswer
  split
  · exact isTrimmedB_pyStrip _
  · exact isTrimmedB_pyStrip _

/-! ### Claim theorems: OCR, loading, state -/

/-- Claim C5: `extract_text_from_image` never raises: it is a total function
of the outcome of the external calls; on success it returns the extracted
text behind the fixed label, and on any failure it returns a string carrying
the error description behind the fixed error label instead of propagating
the exception. -/
theorem ocr_never_raises (r : OCRCallOutcome) :
    (∀ t, r = OCRCallOutcome.ok t →
      extract_text_from_image r = ("Extracted text from image:\n\n".toList) ++ t)
    ∧ (∀ e, r = OCRCallOutcome.failure e →
      extract_text_from_image r = ("Error extracting text from image: ".toList) ++ e) := by
  constructor <;> intro x hx <;> subst hx <;> rfl

theorem ocr_never_raises_witness :
    extract_text_from_image (OCRCallOutcome.ok ("hello".toList))
      = "Extracted text from image:\n\nhello".toList
    ∧ extract_text_from_image (OCRCallOutcome.failure ("No such file".toList))
      = "Error extracting text from image: No such file".toList := by
  constructor
  · have h := (ocr_never_raises (OCRCallOutcome.ok ("hello".toList))).1
      ("hello".toList) rfl
    rw [h]
    decide
  · have h := (ocr_never_raises (OCRCallOutcome.failure ("No such file".toList))).2
      ("No such file".toList) rfl
    rw [h]
    decide

theorem foldl_append_eq (lines : List QARecord) :
    ∀ acc : List QARecord, lines.foldl (fun a r => a ++ [r]) acc = acc ++ lines := by
  induction lines with
  | nil => intro acc; simp [List.foldl]
  | cons x xs ih =>
    intro acc
    simp only [List.foldl_cons, ih, List.append_assoc, List.singleton_append]

theorem loadJsonQA_eq_self (lines : List QARecord) : loadJsonQA lines = lines := by
  unfold loadJsonQA
  rw [foldl_append_eq]
  rfl

/-- Claim C6: loading N well-formed JSONL lines yields exactly N parsed
records and N documents, and the i-th document carries the `task_id` of the
i-th input line. -/
theorem jsonl_loading_preserves_records (lines : List QARecord) :
    (loadJsonQA lines).length = lines.length
    ∧ (loadDocs (loadJsonQA lines)).length = lines.length
    ∧ (loadDocs (loadJsonQA lines)).map Doc.task_id = lines.map QARecord.task_id
    ∧ ∀ i : Nat, (((loadDocs (loadJsonQA lines)).map Doc.task_id).getD i [])
        = ((lines.map QARecord.task_id).getD i []) := by
  rw [loadJsonQA_eq_self]
  have h3 : (loadDocs lines).map Doc.task_id = lines.map QARecord.task_id := by
    simp [loadDocs, mkDoc, List.map_map]
  refine ⟨rfl, by simp [loadDocs], h3, ?_⟩
  intro i
  rw [h3]

/-- Claim C7: the record set and the index are built exactly once at startup
and never mutated: the startup state's index is exactly the index built from
its document list, the documents are exactly those loaded from the records,
and a retriever call returns the state unchanged. -/
theorem index_built_once_never_mutated (lines : List QARecord) (st : AgentState)
    (q : List Char) :
    (startup lines).bm25_retriever = BM25Retriever_from_defaults ((startup lines).docs)
    ∧ (startup lines).docs = loadDocs ((startup lines).json_QA)
    ∧ (get_answer_info_retriever_call st q).2 = st :=
  ⟨rfl, rfl, rfl⟩

/-- Claim C10: `get_answer_info_retriever` is deterministic: with the index
fixed, two calls on equal query strings return the identical output. -/
theorem retriever_deterministic (idx : BM25Index) (q₁ q₂ : List Char) (h : q₁ = q₂) :
    get_answer_info_retriever idx q₁ = get_answer_info_retriever idx q₂ := by
  rw [h]

theorem retriever_deterministic_witness :
    get_answer_info_retriever (BM25Retriever_from_defaults [parisDoc]) ("Paris".toList)
      = get_answer_info_retriever (BM25Retriever_from_defaults [parisDoc]) ("Paris".toList) :=
  retriever_deterministic (BM25Retriever_from_defaults [parisDoc])
    ("Paris".toList) ("Paris".toList) rfl

/-! ### Lemmas about the retrieval model -/

theorem termScore_eq_zero {docsL : List Doc} {d : Doc} {t : List Char}
    (h : t ∉ tokenize d.text) : termScore docsL d t = 0 := by
  have htf : tfq t d = 0 := by
    unfold tfq
    rw [List.count_eq_zero.mpr h]
    norm_num
  rw [termScore, htf]
  simp

theorem bm25Score_eq_zero {docsL : List Doc} {d : Doc} (q : List Char)
    (h : ∀ t ∈ tokenize q, t ∉ tokenize d.text) : bm25Score docsL q d = 0 := by
  unfold bm25Score
  apply List.sum_eq_zero
  intro x hx
  rw [List.mem_map] at hx
  obtain ⟨t, ht, rfl⟩ := hx
  exact termScore_eq_zero (h t ht)

theorem retrieve_eq_nil_of_no_shared {docsL : List Doc} {q : List Char}
    (h : ∀ d ∈ docsL, ∀ t ∈ tokenize q, t ∉ tokenize d.text) :
    retrieve (BM25Retriever_from_defaults docsL) q = [] := by
  have hfil : docsL.filter (fun d => decide (0 < bm25Score docsL q d)) = [] := by
    apply List.filter_eq_nil_iff.mpr
    intro d hd
    simp [bm25Score_eq_zero q (h d hd)]
  simp only [retrieve, BM25Retriever_from_defaults]
  rw [hfil]
  rfl

/-- A query sharing no terms with any record scores zero everywhere, so the
retrieval is empty and the wrapper returns the fixed no-match string. -/
theorem no_match_of_no_shared_terms (docsL : List Doc) (q : List Char)
    (h : ∀ d ∈ docsL, ∀ t ∈ tokenize q, t ∉ tokenize d.text) :
    get_answer_info_retriever (BM25Retriever_from_defaults docsL) q = noMatchString := by
  unfold get_answer_info_retriever
  rw [retrieve_eq_nil_of_no_shared h]
  rfl

/-! ### Claim theorems: the retriever -/

/-- Claim C1: for every record set and every query sharing no terms with any
record (so that no record scores above zero relevance), the wrapper
`get_answer_info_retriever` returns the fixed no-match string rather than
any record text. -/
theorem retriever_no_match_when_no_shared_terms (docsL : List Doc) (q : List Char)
    (h : ∀ d ∈ docsL, ∀ t ∈ tokenize q, t ∉ tokenize d.text) :
    get_answer_info_retriever (BM25Retriever_from_defaults docsL) q = noMatchString :=
  no_match_of_no_shared_terms docsL q h

theorem retriever_no_match_when_no_shared_terms_witness :
    (∀ d ∈ [parisDoc], ∀ t ∈ tokenize ("xyzzy".toList), t ∉ tokenize d.text)
    ∧ get_answer_info_retriever (BM25Retriever_from_defaults [parisDoc]) ("xyzzy".toList)
        = noMatchString :=
  ⟨by decide, retriever_no_match_when_no_shared_terms [parisDoc] ("xyzzy".toList) (by decide)⟩

/-- Claim C3 (evaluation of the code at the failing input): the document
built from a record stores the question only in metadata and its indexed
body is `"Final Answer: Paris"`, so the query that is exactly the stored
question text `"capital of France"` shares no indexed terms and the
retriever returns the fixed no-match string — the record's answer does not
appear in any top-3 result. -/
theorem exact_question_query_yields_no_match :
    get_answer_info_retriever (BM25Retriever_from_defaults (loadDocs [parisRecord]))
      parisRecord.Question = noMatchString := by
  have h : loadDocs [parisRecord] = [parisDoc] := rfl
  rw [h]
  exact no_match_of_no_shared_terms [parisDoc] parisRecord.Question (by decide)

/-- Claim C2: for every query with at least one positively scoring record,
the wrapper returns the texts of the top three ranked matches (all matches
when fewer than three) joined by blank lines, where the result list of the
retrieval holds exactly the positively scoring records in descending order
of the term-frequency relevance score. -/
theorem retriever_top3_of_match (docsL : List Doc) (q : List Char)
    (h : ∃ d ∈ docsL, 0 < bm25Score docsL q d) :
    retrieve (BM25Retriever_from_defaults docsL) q ≠ []
    ∧ (∀ d, d ∈ retrieve (BM25Retriever_from_defaults docsL) q ↔
        d ∈ docsL ∧ 0 < bm25Score docsL q d)
    ∧ List.Sorted (fun a d => bm25Score docsL q d ≤ bm25Score docsL q a)
        (retrieve (BM25Retriever_from_defaults docsL) q)
    ∧ get_answer_info_retriever (BM25Retriever_from_defaults docsL) q
        = List.intercalate ("\n\n".toList)
            (((retrieve (BM25Retriever_from_defaults docsL) q).take 3).map Doc.text) := by
  obtain ⟨d0, hd0, hpos⟩ := h
  have hretr : retrieve (BM25Retriever_from_defaults docsL) q
      = List.insertionSort (fun a d => bm25Score docsL q d ≤ bm25Score docsL q a)
          (docsL.filter (fun d => decide (0 < bm25Score docsL q d))) := by
    simp only [retrieve, BM25Retriever_from_defaults]
  have hperm : List.Perm (retrieve (BM25Retriever_from_defaults docsL) q)
      (docsL.filter (fun d => decide (0 < bm25Score docsL q d))) := by
    rw [hretr]
    exact List.perm_insertionSort _ _
  have hmemfil : d0 ∈ docsL.filter (fun d => decide (0 < bm25Score docsL q d)) := by
    rw [List.mem_filter]
    exact ⟨hd0, by simpa using hpos⟩
  have hne : retrieve (BM25Retriever_from_defaults docsL) q ≠ [] := by
    intro hnil
    have hmem := (hperm.mem_iff).mpr hmemfil
    rw [hnil] at hmem
    exact absurd hmem (List.not_mem_nil d0)
  refine ⟨hne, ?_, ?_, ?_⟩
  · intro d
    rw [hperm.mem_iff, List.mem_filter]
    simp
  · rw [hretr]
    haveI : IsTotal Doc (fun a d => bm25Score docsL q d ≤ bm25Score docsL q a) :=
      ⟨fun x y => le_total (bm25Score docsL q y) (bm25Score docsL q x)⟩
    haveI : IsTrans Doc (fun a d => bm25Score docsL q d ≤ bm25Score docsL q a) :=
      ⟨fun x y z h1 h2 => le_trans h2 h1⟩
    exact List.sorted_insertionSort _ _
  · unfold get_answer_info_retriever
    rw [if_neg (by simp [List.isEmpty_iff, hne])]

theorem retriever_top3_of_match_witness :
    (0 : ℚ) < bm25Score [parisDoc] ("Paris".toList) parisDoc
    ∧ retrieve (BM25Retriever_from_defaults [parisDoc]) ("Paris".toList) ≠ []
    ∧ get_answer_info_retriever (BM25Retriever_from_defaults [parisDoc]) ("Paris".toList)
        = List.intercalate ("\n\n".toList)
            (((retrieve (BM25Retriever_from_defaults [parisDoc]) ("Paris".toList)).take 3).map
              Doc.text) := by
  have e1 : tokenize ("Paris".toList) = [['p','a','r','i','s']] := by decide
  have hcnt : (tokenize parisDoc.text).count (['p','a','r','i','s']) = 1 := by decide
  have hlen3 : (tokenize parisDoc.text).length = 3 := by decide
  have hdf : docFreq [parisDoc] (['p','a','r','i','s']) = 1 := by decide
  have hpos : (0 : ℚ) < bm25Score [parisDoc] ("Paris".toList) parisDoc := by
    rw [bm25Score, e1]
    simp only [List.map_cons, List.map_nil, List.sum_cons, List.sum_nil, add_zero]
    rw [termScore, idf, tfq, dl, avgdl, hcnt, hlen3, hdf]
    simp only [dl, hlen3, List.map_cons, List.map_nil, List.sum_cons, List.sum_nil,
      List.length_cons, List.length_nil, kParam, bParam]
    norm_num
  have h := retriever_top3_of_match [parisDoc] ("Paris".toList)
    ⟨parisDoc, by decide, hpos⟩
  exact ⟨hpos, h.1, h.2.2.2⟩
